import Mathlib

/-
Verification of presilience.py: a shallow embedding of the graph model,
the modified Shannon entropy estimator, the resilience curve, and the
node-addition strategies, together with theorems about the claims of the
specification.

Modelling conventions:
  - networkx graphs become a structure of a node list, an edge list of
    ordered pairs read as undirected edges, and an association list for
    the gene_expression node attribute;
  - numpy floating point values become an inductive carrier FVal with
    finite real values, signed infinities and a nan element, so that the
    division-by-zero and nan-propagation behaviour of numpy is captured;
  - probabilities and removal fractions are exact rationals; the random
    draws of np.random.rand are an explicit oracle u with values in [0,1),
    and np.random.choice takes the sampled list as an explicit oracle
    argument, validated against the documented sampling contract;
  - a Python function that can return a value, return None, or raise, is
    modelled with the PyResult type.
-/

namespace Presilience

/-- A networkx-style undirected graph: node list (insertion order), edge
list, and the gene_expression attribute as an ordered association list. -/
structure Graph where
  nodes : List String
  edges : List (String × String)
  gex : List (String × ℚ)
deriving DecidableEq

/-- Result of a Python call: a returned value, a bare None return, or a
raised exception carrying its message. -/
inductive PyResult (α : Type) where
  | ok : α → PyResult α
  | none : PyResult α
  | error : String → PyResult α
deriving DecidableEq

/-- Whether an undirected edge between u and v is present (either
orientation of the stored pair). -/
def hasEdge (G : Graph) (u v : String) : Bool :=
  G.edges.any (fun e => decide ((e.1 = u ∧ e.2 = v) ∨ (e.1 = v ∧ e.2 = u)))

/-- networkx add_edge auto-adds missing endpoints: append a node if absent. -/
def addNodeIfAbsent (G : Graph) (v : String) : Graph :=
  if v ∈ G.nodes then G else { G with nodes := G.nodes ++ [v] }

/-- G.add_edge(u, v): add missing endpoints, then the edge if not present. -/
def addEdge (G : Graph) (u v : String) : Graph :=
  let G1 := addNodeIfAbsent (addNodeIfAbsent G u) v
  if hasEdge G1 u v then G1 else { G1 with edges := G1.edges ++ [(u, v)] }

/-- G.remove_node(v): drop the node, its incident edges and its attribute. -/
def removeNode (G : Graph) (v : String) : Graph :=
  { nodes := G.nodes.filter (fun w => decide (w ≠ v)),
    edges := G.edges.filter (fun e => decide (e.1 ≠ v ∧ e.2 ≠ v)),
    gex := G.gex.filter (fun p => decide (p.1 ≠ v)) }

/-- G.copy(): in the pure embedding a copy is the same value. -/
def Graph.copy (G : Graph) : Graph := G

/-- Degree of a node: number of edge-endpoint occurrences, as networkx
G.degree counts them. -/
def degreeCount (G : Graph) (v : String) : Nat :=
  G.edges.countP (fun e => decide (e.1 = v)) +
    G.edges.countP (fun e => decide (e.2 = v))

/-- Adjacency test over an edge list. -/
def adjacentB (edges : List (String × String)) (u v : String) : Bool :=
  edges.any (fun e => decide ((e.1 = u ∧ e.2 = v) ∨ (e.1 = v ∧ e.2 = u)))

/-- Grow a connected component by repeatedly adding all nodes adjacent to
the current set; the fuel bounds the number of growth rounds. -/
def growComp (edges : List (String × String)) (nodes : List String) :
    Nat → List String → List String
  | 0, comp => comp
  | fuel + 1, comp =>
    let next := nodes.filter
      (fun w => decide (¬ w ∈ comp) && comp.any (fun x => adjacentB edges x w))
    if next.isEmpty then comp else growComp edges nodes fuel (comp ++ next)

/-- The connected component containing v, inside the given node list. -/
def componentOf (edges : List (String × String)) (nodes : List String)
    (v : String) : List String :=
  growComp edges nodes nodes.length [v]

/-- Enumerate connected components: peel off the component of the first
pending node, then recurse on the rest; fuel bounds the component count. -/
def componentsAux (edges : List (String × String)) (allNodes : List String) :
    Nat → List String → List (List String)
  | 0, _ => []
  | _, [] => []
  | fuel + 1, v :: rest =>
    let c := componentOf edges allNodes v
    c :: componentsAux edges allNodes fuel
      (rest.filter (fun w => decide (¬ w ∈ c)))

/-- The multiset of connected-component sizes of a graph, as
nx.connected_components produces them. -/
def componentSizes (G : Graph) : List Nat :=
  (componentsAux G.edges G.nodes G.nodes.length G.nodes).map List.length

/-- Attribute lookup for one node. -/
def gexLookup (G : Graph) (k : String) : Option ℚ :=
  (G.gex.find? (fun p => decide (p.1 = k))).map Prod.snd

/-- nx.set_node_attributes with the old attribute dict extended by one new
key: existing entries are reassigned unchanged; the new key is set only if
the node exists, otherwise it is silently ignored. -/
def setGexNew (G : Graph) (name : String) (v : ℚ) : Graph :=
  if name ∈ G.nodes then
    { G with gex :=
        if G.gex.any (fun p => decide (p.1 = name)) then
          G.gex.map (fun p => if p.1 = name then (name, v) else p)
        else G.gex ++ [(name, v)] }
  else G

/-- Insert a rational into a sorted list. -/
def insertSorted (x : ℚ) : List ℚ → List ℚ
  | [] => [x]
  | y :: ys => if x ≤ y then x :: y :: ys else y :: insertSorted x ys

/-- Sort a list of rationals ascending (insertion sort). -/
def sortQ (l : List ℚ) : List ℚ := l.foldr insertSorted []

/-- np.percentile(xs, 10) with linear interpolation: sort, take the value
at fractional rank (1/10)*(n-1), interpolating between neighbours. -/
def p10 (xs : List ℚ) : ℚ :=
  let sorted := sortQ xs
  let n := xs.length
  let rank : ℚ := (1 / 10) * ((n : ℚ) - 1)
  let lower := (Rat.floor rank).toNat
  let frac := rank - (lower : ℚ)
  match sorted.get? lower, sorted.get? (lower + 1) with
  | some a, some b => a + frac * (b - a)
  | some a, Option.none => a
  | Option.none, _ => 0

/-- np.percentile raises on an empty array. -/
def npPercentile10 (xs : List ℚ) : PyResult ℚ :=
  if xs.isEmpty then .error "IndexError: cannot do a non-empty take from an empty axes"
  else .ok (p10 xs)

/-- np.random.choice(a, size=(m,), replace=False, p): validation of the
probability vector as numpy performs it, then the sampled list is supplied
by the oracle argument pick, checked against the without-replacement
sampling contract (m distinct members of a). The nan-probabilities error
of numpy appears here as the sum check, since in exact rationals a
division by a zero total yields zeros rather than nan. -/
def npChoice (pick : List String) (a : List String) (m : Nat) (p : List ℚ) :
    PyResult (List String) :=
  if p.length ≠ a.length then .error "ValueError: a and p must have same size"
  else if p.any (fun x => decide (x < 0)) then
    .error "ValueError: probabilities are not non-negative"
  else if p.sum ≠ 1 then .error "ValueError: probabilities do not sum to 1"
  else if p.countP (fun x => decide (0 < x)) < m then
    .error "ValueError: fewer non-zero entries in p than size"
  else if pick.length = m ∧ pick.Nodup ∧ ∀ t ∈ pick, t ∈ a then .ok pick
  else .error "invalid sample from choice oracle"

/-- The degree**alpha weight vector used by the degree method, in node
order, as np.array(list(dict(G.degree()).values()))**alpha. -/
def degreeWeights (G : Graph) (alpha : Nat) : List ℚ :=
  (G.nodes.map (fun v => degreeCount G v)).map (fun d => ((d ^ alpha : Nat) : ℚ))

/-- add_node(G, m, n, method, alpha): the three attachment strategies; a
method outside the three falls off the end of the function and returns
None. The sampled target list is the oracle argument pick. -/
def add_node (G : Graph) (m : Nat) (n : String) (method : String)
    (alpha : Nat) (pick : List String) : PyResult Graph :=
  let nodes := G.nodes
  let N := nodes.length
  if method = "random" then
    -- probs = [1 / N for i in range(N)]: the comprehension body never runs
    -- when N = 0, so the empty graph reaches np.random.choice with p = []
    let probs := nodes.map (fun _ => (1 : ℚ) / (N : ℚ))
    match npChoice pick nodes m probs with
    | .ok eijs => .ok (eijs.foldl (fun g t => addEdge g n t) G)
    | .error e => .error e
    | .none => .none
  else if method = "degree" then
    let weights := degreeWeights G alpha
    -- probs = (degrees**alpha) / sum(degrees**alpha); a zero total gives
    -- numpy nan probabilities, here zeros, and choice rejects either way
    let probs := weights.map (fun w => w / weights.sum)
    match npChoice pick nodes m probs with
    | .ok eijs => .ok (eijs.foldl (fun g t => addEdge g n t) G)
    | .error e => .error e
    | .none => .none
  else if method = "bio_smart" then
    -- gex_dict = nx.get_node_attributes(G, "gene_expression") lists only
    -- the nodes that carry the attribute, in node order
    let gene_expression := G.gex.map Prod.snd
    match npPercentile10 gene_expression with
    | .error e => .error e
    | .none => .none
    | .ok gene_exp_decile =>
      let probs := gene_expression.map (fun x => x / gene_expression.sum)
      match npChoice pick nodes m probs with
      | .ok eijs =>
        let G1 := eijs.foldl (fun g t => addEdge g ("added_protein_" ++ n) t) G
        .ok (setGexNew G1 ("added_protein_" ++ n) gene_exp_decile)
      | .error e => .error e
      | .none => .none
  else PyResult.none

/-- The 4-cycle example graph of the specification, with string node ids. -/
def cycle4 : Graph :=
  ⟨["0", "1", "2", "3"],
   [("0", "1"), ("1", "2"), ("2", "3"), ("3", "0")], []⟩

/-- The 4-cycle with a gene_expression value on every node. -/
def gex4 : Graph :=
  ⟨["0", "1", "2", "3"],
   [("0", "1"), ("1", "2"), ("2", "3"), ("3", "0")],
   [("0", 1), ("1", 2), ("2", 3), ("3", 4)]⟩

/-- A single-node graph. -/
def single1 : Graph := ⟨["p"], [], []⟩

example : componentSizes cycle4 = [4] := by decide
example : componentSizes single1 = [1] := by decide
example : p10 (gex4.gex.map Prod.snd) = 13 / 10 := by with_unfolding_all decide
example : add_node cycle4 0 "x" "random" 1 [] = PyResult.ok cycle4 := by
  with_unfolding_all decide

/-- A numpy floating-point value: finite real, signed infinity, or nan.
This carrier captures the division-by-zero and nan-propagation behaviour
of numpy arithmetic that the entropy estimator can hit. -/
inductive FVal where
  | fin : ℝ → FVal
  | posInf : FVal
  | negInf : FVal
  | nan : FVal

open scoped Classical

/-- Floating addition on the FVal carrier. -/
noncomputable def FVal.fadd : FVal → FVal → FVal
  | .nan, _ => .nan
  | .fin a, .fin b => .fin (a + b)
  | .fin _, .posInf => .posInf
  | .fin _, .negInf => .negInf
  | .fin _, .nan => .nan
  | .posInf, .fin _ => .posInf
  | .posInf, .posInf => .posInf
  | .posInf, .negInf => .nan
  | .posInf, .nan => .nan
  | .negInf, .fin _ => .negInf
  | .negInf, .posInf => .nan
  | .negInf, .negInf => .negInf
  | .negInf, .nan => .nan

/-- Floating subtraction. -/
noncomputable def FVal.fsub : FVal → FVal → FVal
  | .nan, _ => .nan
  | .fin a, .fin b => .fin (a - b)
  | .fin _, .posInf => .negInf
  | .fin _, .negInf => .posInf
  | .fin _, .nan => .nan
  | .posInf, .fin _ => .posInf
  | .posInf, .posInf => .nan
  | .posInf, .negInf => .posInf
  | .posInf, .nan => .nan
  | .negInf, .fin _ => .negInf
  | .negInf, .posInf => .negInf
  | .negInf, .negInf => .nan
  | .negInf, .nan => .nan

/-- Floating multiplication; infinity times zero is nan, as in IEEE. -/
noncomputable def FVal.fmul : FVal → FVal → FVal
  | .nan, _ => .nan
  | .fin a, .fin b => .fin (a * b)
  | .fin a, .posInf => if a = 0 then .nan else if 0 < a then .posInf else .negInf
  | .fin a, .negInf => if a = 0 then .nan else if 0 < a then .negInf else .posInf
  | .fin _, .nan => .nan
  | .posInf, .fin b => if b = 0 then .nan else if 0 < b then .posInf else .negInf
  | .posInf, .posInf => .posInf
  | .posInf, .negInf => .negInf
  | .posInf, .nan => .nan
  | .negInf, .fin b => if b = 0 then .nan else if 0 < b then .negInf else .posInf
  | .negInf, .posInf => .negInf
  | .negInf, .negInf => .posInf
  | .negInf, .nan => .nan

/-- Floating division; a nonzero finite value divided by (positive) zero
gives a signed infinity, zero by zero gives nan, as numpy produces with a
RuntimeWarning rather than an exception. -/
noncomputable def FVal.fdiv : FVal → FVal → FVal
  | .nan, _ => .nan
  | .fin a, .fin b =>
    if b = 0 then (if a = 0 then .nan else if 0 < a then .posInf else .negInf)
    else .fin (a / b)
  | .fin _, .posInf => .fin 0
  | .fin _, .negInf => .fin 0
  | .fin _, .nan => .nan
  | .posInf, .fin b => if 0 ≤ b then .posInf else .negInf
  | .posInf, .posInf => .nan
  | .posInf, .negInf => .nan
  | .posInf, .nan => .nan
  | .negInf, .fin b => if 0 ≤ b then .negInf else .posInf
  | .negInf, .posInf => .nan
  | .negInf, .negInf => .nan
  | .negInf, .nan => .nan

/-- Floating absolute value (np.abs): abs of nan is nan. -/
noncomputable def FVal.fabs : FVal → FVal
  | .nan => .nan
  | .fin a => .fin |a|
  | .posInf => .posInf
  | .negInf => .posInf

/-- Floating square root (np.sqrt): negative input gives nan. -/
noncomputable def FVal.fsqrt : FVal → FVal
  | .nan => .nan
  | .fin a => if a < 0 then .nan else .fin (Real.sqrt a)
  | .posInf => .posInf
  | .negInf => .nan

/-- Sum of a float list, from zero, left to right (np.sum / builtin sum). -/
noncomputable def fsumF (xs : List FVal) : FVal := xs.foldl FVal.fadd (FVal.fin 0)

/-- np.mean: sum divided by length; the empty mean is 0/0 = nan, matching
the nan numpy returns with a RuntimeWarning. -/
noncomputable def fmean (xs : List FVal) : FVal :=
  FVal.fdiv (fsumF xs) (FVal.fin (xs.length : ℝ))

/-- np.std: root of the mean squared deviation from the mean. -/
noncomputable def fstd (xs : List FVal) : FVal :=
  let mu := fmean xs
  FVal.fsqrt (fmean (xs.map (fun x => FVal.fmul (FVal.fsub x mu) (FVal.fsub x mu))))

/-- The map p given to each entropy term: p times log2 of p, with the
probability an exact rational. -/
noncomputable def phiQ (q : ℚ) : ℝ := (q : ℝ) * Real.logb 2 (q : ℝ)

/-- np.log2 on a node count: log2 of 0 is negative infinity with a
warning, otherwise the finite real logarithm. -/
noncomputable def flog2 (n : Nat) : FVal :=
  if n = 0 then .negInf else .fin (Real.logb 2 (n : ℝ))

/-- The removal marking pass: node i is marked when its uniform draw
u i falls below the removal fraction f, in node order, exactly the list
comprehension over np.random.rand() draws. -/
def removeMarks (nodes : List String) (f : ℚ) (u : String → ℚ) : List String :=
  nodes.filter (fun v => decide (u v < f))

/-- One trial of the loop body of modified_shannon_entropy: returns the
per-trial entropy together with the state of the caller-owned graph
object after the trial (all removal happens on the working copy G_f, so
the second component is the untouched argument). The accumulator curr is
always a finite real, since every probability entering log2 is positive;
the division by log2 N in the leading term is where nonfinite values
arise. -/
noncomputable def trialStep (G : Graph) (f : ℚ) (removal : String)
    (u : String → ℚ) : FVal × Graph :=
  let N := G.nodes.length
  let leading_term := FVal.fdiv (FVal.fin (-1)) (flog2 N)
  let p_i_unif : ℚ := 1 / (N : ℚ)
  let G_f := Graph.copy G
  let remove_nodes :=
    if removal = "random" then removeMarks G_f.nodes f u
    else removeMarks G_f.nodes f u  -- warning branch, then the same removal
  let G_f2 := remove_nodes.foldl removeNode G_f
  let curr : ℝ := (remove_nodes.length : ℝ) * phiQ p_i_unif
    + ((componentSizes G_f2).map (fun (c : Nat) => phiQ ((c : ℚ) / (N : ℚ)))).sum
  (FVal.fabs (FVal.fmul leading_term (FVal.fin curr)), G)

/-- Return value of modified_shannon_entropy: a bare scalar mean, or a
mean and standard deviation pair. -/
inductive MshOut where
  | scalar : FVal → MshOut
  | pair : FVal → FVal → MshOut

/-- modified_shannon_entropy(G, f, removal, niter, return_stdv): run niter
trials threading the caller graph-object state through them, then return
the mean, and the standard deviation only when requested and niter > 4.
The Python expression 1 / N raises ZeroDivisionError inside each trial of
an empty graph, modelled by the guard, which fires only when the loop
body runs at least once. -/
noncomputable def modified_shannon_entropy (G : Graph) (f : ℚ) (removal : String)
    (niter : Nat) (return_stdv : Bool) (u : Nat → String → ℚ) :
    PyResult MshOut × Graph :=
  let step := fun (st : Graph × List FVal) (t : Nat) =>
    let r := trialStep st.1 f removal (u t)
    (r.2, st.2 ++ [r.1])
  let final := (List.range niter).foldl step (G, [])
  let Hs := final.2
  let res : PyResult MshOut :=
    if niter ≠ 0 ∧ G.nodes.length = 0 then
      .error "ZeroDivisionError: division by zero"
    else if return_stdv = true ∧ 4 < niter then .ok (.pair (fmean Hs) (fstd Hs))
    else .ok (.scalar (fmean Hs))
  (res, final.1)

/-- np.linspace(0, 1, rate): the uniform grid of rate points over the
closed interval; rate = 1 gives the single point 0, rate = 0 none. -/
def linspace01 (rate : Nat) : List ℚ :=
  if rate ≤ 1 then (List.range rate).map (fun _ => (0 : ℚ))
  else (List.range rate).map (fun (i : Nat) => (i : ℚ) / ((rate : ℚ) - 1))

/-- Sequence a list of Python call results left to right: the first raise
or None return aborts the enclosing loop. -/
def pySequence {α : Type} : List (PyResult α) → PyResult (List α)
  | [] => .ok []
  | r :: rs =>
    match r with
    | .ok a =>
      match pySequence rs with
      | .ok l => .ok (a :: l)
      | .error e => .error e
      | .none => .none
    | .error e => .error e
    | .none => .none

/-- The tuple unpacking a, b = modified_shannon_entropy(...): a pair
unpacks, while the bare numpy scalar returned without a standard
deviation raises TypeError. -/
def unpair : PyResult MshOut → PyResult (FVal × FVal)
  | .ok (.pair a b) => .ok (a, b)
  | .ok (.scalar _) => .error "TypeError: cannot unpack non-iterable numpy float"
  | .error e => .error e
  | .none => .none

/-- Return value of resilience: the curve, or the scalar summary. -/
inductive ResOut where
  | curve : List FVal → ResOut
  | scalar : FVal → ResOut

/-- np.array(rows).mean(axis=0) on a rectangular list of rows: the
columnwise mean, with the column count read off the first row. -/
noncomputable def ewiseMean (rows : List (List FVal)) : List FVal :=
  let cols := (rows.headD []).length
  (List.range cols).map (fun j => fmean (rows.map (fun r => r.getD j (FVal.fin 0))))

/-- resilience(G, ntimes, rate, output_list, removal, H_std, niter): sweep
the removal-fraction grid ntimes times, unpacking each estimator result
into a mean and stdv, then reduce by columnwise mean and return the curve
or the scalar 1 - sum(curve)/rate. The estimator leaves its graph
argument unchanged, so each call receives G itself. The random draws are
the oracle u, indexed by repetition, grid point, trial and node. -/
noncomputable def resilience (G : Graph) (ntimes rate : Nat) (output_list : Bool)
    (removal : String) (H_std : Bool) (niter : Nat)
    (u : Nat → Nat → Nat → String → ℚ) : PyResult ResOut :=
  match pySequence ((List.range ntimes).map (fun r =>
      pySequence (((linspace01 rate).enum).map (fun jf =>
        unpair (modified_shannon_entropy G jf.2 removal niter H_std (u r jf.1)).1)))) with
  | .error e => .error e
  | .none => .none
  | .ok rows =>
    if ntimes = 0 then
      -- np.array([]).mean(axis=0) is a scalar nan: the list branch returns
      -- it, the scalar branch raises iterating a zero-dimensional array
      if output_list then .ok (.scalar FVal.nan)
      else .error "TypeError: iteration over a 0-d array"
    else
      let out_mean := ewiseMean (rows.map (fun row => row.map Prod.fst))
      let _out_stdv := ewiseMean (rows.map (fun row => row.map Prod.snd))
      if output_list then .ok (.curve out_mean)
      else .ok (.scalar (FVal.fsub (FVal.fin 1)
        (FVal.fdiv (fsumF out_mean) (FVal.fin (rate : ℝ)))))

/-- The second component of a trial is the untouched caller graph. -/
theorem trialStep_snd (G : Graph) (f : ℚ) (removal : String) (u : String → ℚ) :
    (trialStep G f removal u).2 = G := rfl

/-- The trial-loop fold threads the caller graph unchanged and collects
the per-trial entropies in order. -/
theorem msh_foldl_spec (G : Graph) (f : ℚ) (removal : String)
    (u : Nat → String → ℚ) (L : List Nat) (acc : List FVal) :
    L.foldl (fun (st : Graph × List FVal) (t : Nat) =>
        let r := trialStep st.1 f removal (u t)
        (r.2, st.2 ++ [r.1])) (G, acc)
      = (G, acc ++ L.map (fun t => (trialStep G f removal (u t)).1)) := by
  induction L generalizing acc with
  | nil => simp
  | cons a L ih => simpa using ih (acc ++ [(trialStep G f removal (u a)).1])

/-- The per-trial entropies of one estimator call, in trial order. -/
noncomputable def trialList (G : Graph) (f : ℚ) (removal : String)
    (niter : Nat) (u : Nat → String → ℚ) : List FVal :=
  (List.range niter).map (fun t => (trialStep G f removal (u t)).1)

/-- The value component of the estimator for a nonempty graph. -/
theorem msh_fst (G : Graph) (f : ℚ) (removal : String) (niter : Nat)
    (return_stdv : Bool) (u : Nat → String → ℚ) (hN : G.nodes.length ≠ 0) :
    (modified_shannon_entropy G f removal niter return_stdv u).1 =
      if return_stdv = true ∧ 4 < niter then
        PyResult.ok (MshOut.pair (fmean (trialList G f removal niter u))
          (fstd (trialList G f removal niter u)))
      else PyResult.ok (MshOut.scalar (fmean (trialList G f removal niter u))) := by
  simp [modified_shannon_entropy, msh_foldl_spec, trialList, hN]

/-- C9: for every graph, fraction, policy and trial count, the estimator
leaves the original graph unchanged; all removal happens on the per-trial
working copy, so the final state of the caller graph object equals its
initial state. -/
theorem msh_graph_untouched (G : Graph) (f : ℚ) (removal : String)
    (niter : Nat) (return_stdv : Bool) (u : Nat → String → ℚ) :
    (modified_shannon_entropy G f removal niter return_stdv u).2 = G := by
  simp [modified_shannon_entropy, msh_foldl_spec]

/-- C10: a method argument outside the three recognised strings falls
through every branch of add_node: the call returns None and no graph is
produced, with no warning path and no fallback in the code. -/
theorem add_node_unknown_method (G : Graph) (m : Nat) (n method : String)
    (alpha : Nat) (pick : List String)
    (h : method ≠ "random" ∧ method ≠ "degree" ∧ method ≠ "bio_smart") :
    add_node G m n method alpha pick = PyResult.none := by
  simp [add_node, h.1, h.2.1, h.2.2]

/-- C10 witness: the unknown method foo on the 4-cycle returns None. -/
theorem add_node_unknown_method_witness :
    ("foo" ≠ "random" ∧ "foo" ≠ "degree" ∧ "foo" ≠ "bio_smart") ∧
      add_node cycle4 2 "x" "foo" 1 ["0", "1"] = PyResult.none :=
  ⟨by decide, add_node_unknown_method cycle4 2 "x" "foo" 1 ["0", "1"] (by decide)⟩

/-- C1: the claim fails on the code. With H_std false, or with niter at
most 4, the estimator returns a bare scalar, and the unconditional tuple
unpacking inside resilience raises TypeError instead of producing the
curve: evaluated here on the 4-cycle with ntimes = 1, rate = 2, and
either H_std = false with niter = 50, or H_std = true with niter = 3. -/
theorem resilience_unpack_raises :
    resilience cycle4 1 2 true "random" false 50 (fun _ _ _ _ => 0) =
      PyResult.error "TypeError: cannot unpack non-iterable numpy float" ∧
    resilience cycle4 1 2 true "random" true 3 (fun _ _ _ _ => 0) =
      PyResult.error "TypeError: cannot unpack non-iterable numpy float" := by
  exact ⟨rfl, rfl⟩

/-- Sequencing a list of successful calls succeeds, with the result list
of the same length and every element satisfying the invariant carried by
the calls. -/
theorem pySequence_ok {α β : Type} (l : List α) (g : α → PyResult β) (P : β → Prop)
    (h : ∀ x ∈ l, ∃ y, g x = .ok y ∧ P y) :
    ∃ l2, pySequence (l.map g) = .ok l2 ∧ l2.length = l.length ∧ ∀ y ∈ l2, P y := by
  induction l with
  | nil => exact ⟨[], rfl, rfl, by simp⟩
  | cons a l ih =>
    obtain ⟨y, hy, hPy⟩ := h a (List.mem_cons_self a l)
    obtain ⟨l2, hl2, hlen, hP⟩ := ih (fun x hx => h x (List.mem_cons_of_mem a hx))
    refine ⟨y :: l2, ?_, by simp [hlen], ?_⟩
    · simp [pySequence, hy, hl2]
    · intro z hz
      rcases List.mem_cons.mp hz with rfl | hz
      · exact hPy
      · exact hP z hz

/-- The fraction grid always has exactly rate points. -/
theorem linspace01_length (rate : Nat) : (linspace01 rate).length = rate := by
  unfold linspace01
  split
  · rw [List.length_map, List.length_range]
  · rw [List.length_map, List.length_range]

/-- The grid starts at 0 when it has at least two points. -/
theorem linspace01_head (rate : Nat) (h : 2 ≤ rate) :
    (linspace01 rate).head? = some 0 := by
  have h0 : 0 < rate := by omega
  unfold linspace01
  rw [if_neg (by omega)]
  rw [List.head?_eq_getElem?, List.getElem?_map, List.getElem?_range h0]
  simp

/-- The grid ends at 1 when it has at least two points. -/
theorem linspace01_last (rate : Nat) (h : 2 ≤ rate) :
    (linspace01 rate).getLast? = some 1 := by
  unfold linspace01
  rw [if_neg (by omega)]
  rw [List.getLast?_eq_getElem?, List.length_map, List.length_range,
    List.getElem?_map, List.getElem?_range (by omega : rate - 1 < rate)]
  have hne : ((rate : ℚ)) - 1 ≠ 0 := by
    have : (2 : ℚ) ≤ (rate : ℚ) := by exact_mod_cast h
    intro hc
    nlinarith
  have hcast : ((rate - 1 : Nat) : ℚ) = (rate : ℚ) - 1 := by
    have : (1 : Nat) ≤ rate := by omega
    push_cast [this]
    ring
  have hmap : Option.map (fun (i : Nat) => (i : ℚ) / ((rate : ℚ) - 1))
      (some (rate - 1)) = some (((rate - 1 : Nat) : ℚ) / ((rate : ℚ) - 1)) := rfl
  rw [hmap, hcast, div_self hne]

/-- When every estimator call unpacks, resilience with list output
returns the columnwise-mean curve of the collected rows. -/
theorem resilience_of_rows (G : Graph) (ntimes rate : Nat) (removal : String)
    (H_std : Bool) (niter : Nat) (u : Nat → Nat → Nat → String → ℚ)
    (rows : List (List (FVal × FVal)))
    (hrows : pySequence ((List.range ntimes).map (fun r =>
        pySequence (((linspace01 rate).enum).map (fun jf =>
          unpair (modified_shannon_entropy G jf.2 removal niter H_std (u r jf.1)).1))))
      = PyResult.ok rows)
    (hnt : ntimes ≠ 0) :
    resilience G ntimes rate true removal H_std niter u =
      PyResult.ok (ResOut.curve (ewiseMean (rows.map (fun row => row.map Prod.fst)))) := by
  unfold resilience
  rw [hrows]
  simp [hnt]

/-- C8: with the standard deviation requested and more than 4 trials, the
list output of resilience is a curve of exactly rate values, one per
point of the inclusive uniform grid over the unit interval, for every
graph with at least two nodes. -/
theorem resilience_curve_length (G : Graph) (ntimes rate : Nat) (removal : String)
    (niter : Nat) (u : Nat → Nat → Nat → String → ℚ)
    (hN : 2 ≤ G.nodes.length) (hrate : 2 ≤ rate) (hnt : 1 ≤ ntimes) (hni : 4 < niter) :
    (∃ curve, resilience G ntimes rate true removal true niter u =
        PyResult.ok (ResOut.curve curve) ∧ curve.length = rate) ∧
    (linspace01 rate).length = rate ∧
    (linspace01 rate).head? = some 0 ∧ (linspace01 rate).getLast? = some 1 := by
  have hN0 : G.nodes.length ≠ 0 := by omega
  have hinner : ∀ r ∈ List.range ntimes, ∃ row,
      pySequence (((linspace01 rate).enum).map (fun jf =>
        unpair (modified_shannon_entropy G jf.2 removal niter true (u r jf.1)).1))
        = .ok row ∧ row.length = rate := by
    intro r _
    obtain ⟨row, hrow, hlen, -⟩ := pySequence_ok ((linspace01 rate).enum)
      (fun jf => unpair (modified_shannon_entropy G jf.2 removal niter true (u r jf.1)).1)
      (fun _ => True) (by
        intro jf _
        refine ⟨(fmean (trialList G jf.2 removal niter (u r jf.1)),
          fstd (trialList G jf.2 removal niter (u r jf.1))), ?_, trivial⟩
        show unpair (modified_shannon_entropy G jf.2 removal niter true (u r jf.1)).1 = _
        rw [msh_fst G jf.2 removal niter true (u r jf.1) hN0, if_pos ⟨rfl, hni⟩]
        rfl)
    refine ⟨row, hrow, ?_⟩
    rw [hlen, List.enum_length, linspace01_length]
  obtain ⟨rows, hrows, hrowslen, hrowsP⟩ := pySequence_ok (List.range ntimes)
    _ (fun (row : List (FVal × FVal)) => row.length = rate) hinner
  refine ⟨?_, linspace01_length rate, linspace01_head rate hrate,
    linspace01_last rate hrate⟩
  have hnt0 : ntimes ≠ 0 := by omega
  refine ⟨ewiseMean (rows.map (fun row => row.map Prod.fst)), ?_, ?_⟩
  · exact resilience_of_rows G ntimes rate removal true niter u rows hrows hnt0
  · obtain ⟨r0, rest, rfl⟩ : ∃ r0 rest, rows = r0 :: rest := by
      cases rows with
      | nil =>
        rw [List.length_nil, List.length_range] at hrowslen
        omega
      | cons r0 rest => exact ⟨r0, rest, rfl⟩
    have hcols : (((r0 :: rest).map (fun row => row.map Prod.fst)).headD []).length
        = rate := by
      simp only [List.map_cons, List.headD_cons, List.length_map]
      exact hrowsP r0 (List.mem_cons_self r0 rest)
    unfold ewiseMean
    rw [List.length_map, List.length_range, hcols]

/-- C8 witness: the 4-cycle, one repetition, a 2-point grid and 5 trials
give a curve of length 2 with grid endpoints 0 and 1. -/
theorem resilience_curve_length_witness :
    (∃ curve, resilience cycle4 1 2 true "random" true 5 (fun _ _ _ _ => 0) =
        PyResult.ok (ResOut.curve curve) ∧ curve.length = 2) ∧
    (linspace01 2).length = 2 ∧
    (linspace01 2).head? = some 0 ∧ (linspace01 2).getLast? = some 1 :=
  resilience_curve_length cycle4 1 2 "random" 5 (fun _ _ _ _ => 0)
    (by decide) (by decide) (by decide) (by decide)

/-- Division of finite values with a nonzero denominator is finite. -/
theorem fdiv_fin_fin (a b : ℝ) (hb : b ≠ 0) :
    FVal.fdiv (.fin a) (.fin b) = .fin (a / b) := by
  simp [FVal.fdiv, hb]

/-- Multiplication of finite values is finite. -/
theorem fmul_fin_fin (a b : ℝ) : FVal.fmul (.fin a) (.fin b) = .fin (a * b) := rfl

/-- Absolute value of a finite value. -/
theorem fabs_fin (a : ℝ) : FVal.fabs (.fin a) = .fin |a| := rfl

/-- Adding anything to nan gives nan. -/
theorem fadd_nan_left (x : FVal) : FVal.fadd .nan x = .nan := by cases x <;> rfl

/-- Dividing nan by anything gives nan. -/
theorem fdiv_nan_left (x : FVal) : FVal.fdiv .nan x = .nan := by cases x <;> rfl

/-- A fold of additions started from nan stays nan. -/
theorem foldl_fadd_nan (l : List FVal) : l.foldl FVal.fadd .nan = .nan := by
  induction l with
  | nil => rfl
  | cons a l ih => rw [List.foldl_cons, fadd_nan_left]; exact ih

/-- The mean of a list of nans, empty included, is nan: the empty mean is
the 0/0 nan numpy warns about, a nonempty one propagates nan. -/
theorem fmean_replicate_nan (k : Nat) : fmean (List.replicate k FVal.nan) = FVal.nan := by
  cases k with
  | zero => simp [fmean, fsumF, FVal.fdiv]
  | succ k =>
    rw [fmean, fsumF, List.replicate_succ, List.foldl_cons]
    have h0 : FVal.fadd (.fin 0) .nan = .nan := rfl
    rw [h0, foldl_fadd_nan, fdiv_nan_left]

/-- The standard deviation of a list of nans is nan. -/
theorem fstd_replicate_nan (k : Nat) : fstd (List.replicate k FVal.nan) = FVal.nan := by
  rw [fstd]
  have hsub : FVal.fsub FVal.nan (fmean (List.replicate k FVal.nan)) = FVal.nan := rfl
  have hmap : (List.replicate k FVal.nan).map
      (fun x => FVal.fmul (FVal.fsub x (fmean (List.replicate k FVal.nan)))
        (FVal.fsub x (fmean (List.replicate k FVal.nan))))
      = List.replicate k FVal.nan := by
    rw [List.map_replicate, hsub]
    rfl
  rw [hmap, fmean_replicate_nan]
  rfl

/-- Removing a list of nodes removes exactly those nodes from the node
list, in order. -/
theorem foldl_removeNode_nodes (L : List String) (G : Graph) :
    (L.foldl removeNode G).nodes = G.nodes.filter (fun v => decide (¬ v ∈ L)) := by
  induction L generalizing G with
  | nil => simp
  | cons a L ih =>
    rw [List.foldl_cons, ih]
    show ((G.nodes.filter (fun w => decide (w ≠ a))).filter
      (fun v => decide (¬ v ∈ L))) = _
    rw [List.filter_filter]
    apply List.filter_congr
    intro v _
    simp only [List.mem_cons, not_or, decide_not, Bool.decide_and]
    cases hva : decide (v = a) <;> cases hvl : decide (v ∈ L) <;> simp_all

/-- A graph with an empty node list has no connected components. -/
theorem componentSizes_nil (G : Graph) (h : G.nodes = []) : componentSizes G = [] := by
  rw [componentSizes, h]
  rfl

/-- A graph whose node list is one node has exactly one component, of
size one, whatever its edge list holds. -/
theorem componentSizes_single (G : Graph) (v : String) (h : G.nodes = [v]) :
    componentSizes G = [1] := by
  rw [componentSizes, h]
  simp [componentsAux, componentOf, growComp]

/-- The per-trial entropy, written out: the working copy is the graph
itself, the two warning branches mark identically, and the accumulator
collects the removed-singleton mass and the component terms. -/
theorem trialStep_fst (G : Graph) (f : ℚ) (removal : String) (u : String → ℚ) :
    (trialStep G f removal u).1 =
      FVal.fabs (FVal.fmul (FVal.fdiv (FVal.fin (-1)) (flog2 G.nodes.length))
        (FVal.fin (((removeMarks G.nodes f u).length : ℝ) * phiQ (1 / (G.nodes.length : ℚ))
          + ((componentSizes ((removeMarks G.nodes f u).foldl removeNode G)).map
              (fun (c : Nat) => phiQ ((c : ℚ) / (G.nodes.length : ℚ)))).sum))) := by
  rw [trialStep]
  simp [Graph.copy]

/-- C2: at fraction 1 every draw is below the threshold, so every trial
removes all N nodes, the post-removal graph has no components, the
accumulator holds exactly the N singleton terms, and the per-trial
entropy is exactly 1, for every graph with at least two nodes
independent of its topology. -/
theorem entropy_fraction_one (G : Graph) (removal : String) (u : String → ℚ)
    (hN : 2 ≤ G.nodes.length) (hu : ∀ v, 0 ≤ u v ∧ u v < 1) :
    removeMarks G.nodes 1 u = G.nodes ∧
    componentSizes ((removeMarks G.nodes 1 u).foldl removeNode G) = [] ∧
    (trialStep G 1 removal u).1 = FVal.fin 1 := by
  have hN0 : G.nodes.length ≠ 0 := by omega
  have hNne : (G.nodes.length : ℝ) ≠ 0 := Nat.cast_ne_zero.mpr hN0
  have hL : 0 < Real.logb 2 (G.nodes.length : ℝ) :=
    Real.logb_pos (by norm_num)
      (by exact_mod_cast (by omega : 1 < G.nodes.length))
  have hLne : Real.logb 2 (G.nodes.length : ℝ) ≠ 0 := ne_of_gt hL
  have hmarks : removeMarks G.nodes 1 u = G.nodes := by
    rw [removeMarks, List.filter_eq_self]
    intro v _
    simp [(hu v).2]
  have hnodes : ((removeMarks G.nodes 1 u).foldl removeNode G).nodes = [] := by
    rw [hmarks, foldl_removeNode_nodes, List.filter_eq_nil_iff]
    intro v hv
    simp [hv]
  have hcs : componentSizes ((removeMarks G.nodes 1 u).foldl removeNode G) = [] :=
    componentSizes_nil _ hnodes
  refine ⟨hmarks, hcs, ?_⟩
  rw [trialStep_fst, hcs, hmarks]
  rw [List.map_nil, List.sum_nil, add_zero]
  rw [flog2, if_neg hN0, fdiv_fin_fin _ _ hLne, fmul_fin_fin, fabs_fin]
  congr 1
  rw [phiQ]
  push_cast
  rw [one_div, Real.logb_inv]
  rw [abs_eq (by norm_num)]
  left
  field_simp

/-- C3: at fraction 0 no node is ever marked, and the per-trial entropy
is the normalized entropy of the component size distribution of the
graph itself; for a graph the component algorithm sees as a single
component, it is exactly 0. -/
theorem entropy_fraction_zero (G : Graph) (removal : String) (u : String → ℚ)
    (hN : 2 ≤ G.nodes.length) (hu : ∀ v, 0 ≤ u v) :
    removeMarks G.nodes 0 u = [] ∧
    (trialStep G 0 removal u).1 = FVal.fin
      |(-1 / Real.logb 2 (G.nodes.length : ℝ)) *
        ((componentSizes G).map (fun (c : Nat) =>
          ((c : ℝ) / (G.nodes.length : ℝ)) *
            Real.logb 2 ((c : ℝ) / (G.nodes.length : ℝ)))).sum| ∧
    (componentSizes G = [G.nodes.length] →
      (trialStep G 0 removal u).1 = FVal.fin 0) := by
  have hN0 : G.nodes.length ≠ 0 := by omega
  have hNne : (G.nodes.length : ℝ) ≠ 0 := Nat.cast_ne_zero.mpr hN0
  have hL : 0 < Real.logb 2 (G.nodes.length : ℝ) :=
    Real.logb_pos (by norm_num)
      (by exact_mod_cast (by omega : 1 < G.nodes.length))
  have hmarks : removeMarks G.nodes 0 u = [] := by
    rw [removeMarks, List.filter_eq_nil_iff]
    intro v _
    simp [not_lt.mpr (hu v)]
  have hfun : ∀ c : Nat, phiQ ((c : ℚ) / (G.nodes.length : ℚ)) =
      ((c : ℝ) / (G.nodes.length : ℝ)) *
        Real.logb 2 ((c : ℝ) / (G.nodes.length : ℝ)) := by
    intro c
    rw [phiQ]
    push_cast
    rfl
  have hmain : (trialStep G 0 removal u).1 = FVal.fin
      |(-1 / Real.logb 2 (G.nodes.length : ℝ)) *
        ((componentSizes G).map (fun (c : Nat) =>
          ((c : ℝ) / (G.nodes.length : ℝ)) *
            Real.logb 2 ((c : ℝ) / (G.nodes.length : ℝ)))).sum| := by
    rw [trialStep_fst, hmarks]
    rw [List.foldl_nil, List.length_nil]
    rw [flog2, if_neg hN0, fdiv_fin_fin _ _ (ne_of_gt hL), fmul_fin_fin, fabs_fin]
    simp only [hfun, Nat.cast_zero, zero_mul, zero_add]
  refine ⟨hmarks, hmain, ?_⟩
  intro hconn
  rw [hmain, hconn]
  simp [div_self hNne, Real.logb_one]

/-- The per-trial entropy for a single-node graph is nan: the leading
term is negative infinity, the accumulator is zero, and infinity times
zero is nan. -/
theorem trialStep_single_nan (G : Graph) (v : String) (h : G.nodes = [v])
    (f : ℚ) (removal : String) (w : String → ℚ) :
    (trialStep G f removal w).1 = FVal.nan := by
  have hlen : G.nodes.length = 1 := by rw [h]; rfl
  have hphi1 : phiQ 1 = 0 := by
    simp [phiQ, Real.logb_one]
  have hlead : FVal.fdiv (FVal.fin (-1)) (flog2 G.nodes.length) = FVal.negInf := by
    rw [hlen, flog2, if_neg (by omega), Nat.cast_one, Real.logb_one]
    norm_num [FVal.fdiv]
  have hsum : ((componentSizes ((removeMarks G.nodes f w).foldl removeNode G)).map
      (fun (c : Nat) => phiQ ((c : ℚ) / (G.nodes.length : ℚ)))).sum = 0 := by
    by_cases hvf : w v < f
    · have hm : removeMarks G.nodes f w = [v] := by
        simp [removeMarks, h, hvf]
      have hnil : ((removeMarks G.nodes f w).foldl removeNode G).nodes = [] := by
        rw [hm, foldl_removeNode_nodes, h]
        simp
      rw [componentSizes_nil _ hnil]
      rfl
    · have hm : removeMarks G.nodes f w = [] := by
        simp [removeMarks, h, hvf]
      rw [hm, List.foldl_nil, componentSizes_single G v h, hlen]
      norm_num [hphi1]
  rw [trialStep_fst, hlead, hsum, hlen]
  norm_num [hphi1, FVal.fmul, FVal.fabs]

/-- The estimator on a single-node graph returns the pair of nans. -/
theorem msh_single_nan (G : Graph) (v : String) (h : G.nodes = [v]) (f : ℚ)
    (removal : String) (niter : Nat) (u : Nat → String → ℚ) (hni : 4 < niter) :
    (modified_shannon_entropy G f removal niter true u).1 =
      PyResult.ok (MshOut.pair FVal.nan FVal.nan) := by
  have hN0 : G.nodes.length ≠ 0 := by rw [h]; simp
  have htl : trialList G f removal niter u = List.replicate niter FVal.nan := by
    rw [trialList]
    refine List.eq_replicate_iff.mpr ⟨by rw [List.length_map, List.length_range], ?_⟩
    intro b hb
    obtain ⟨t, -, rfl⟩ := List.mem_map.mp hb
    exact trialStep_single_nan G v h f removal (u t)
  rw [msh_fst G f removal niter true u hN0, if_pos ⟨rfl, hni⟩, htl,
    fmean_replicate_nan, fstd_replicate_nan]

/-- Entries of a replicated list read with a default. -/
theorem getD_replicate_of_lt (k j : Nat) (a d : FVal) (hj : j < k) :
    (List.replicate k a).getD j d = a := by
  induction k generalizing j with
  | zero => omega
  | succ k ih =>
    rw [List.replicate_succ]
    cases j with
    | zero => rfl
    | succ j =>
      rw [List.getD_cons_succ]
      exact ih j (by omega)

/-- The columnwise mean of identical nan rows is the nan row. -/
theorem ewiseMean_replicate_nan (ntimes rate : Nat) (hnt : 1 ≤ ntimes) :
    ewiseMean (List.replicate ntimes (List.replicate rate FVal.nan))
      = List.replicate rate FVal.nan := by
  obtain ⟨k, rfl⟩ : ∃ k, ntimes = k + 1 := ⟨ntimes - 1, by omega⟩
  rw [ewiseMean]
  have hhead : ((List.replicate (k + 1) (List.replicate rate FVal.nan)).headD []).length
      = rate := by
    rw [List.replicate_succ, List.headD_cons, List.length_replicate]
  rw [hhead]
  refine List.eq_replicate_iff.mpr ⟨by rw [List.length_map, List.length_range], ?_⟩
  intro b hb
  obtain ⟨j, hj, rfl⟩ := List.mem_map.mp hb
  have hjr : j < rate := List.mem_range.mp hj
  rw [List.map_replicate, getD_replicate_of_lt rate j FVal.nan (FVal.fin 0) hjr,
    fmean_replicate_nan]

/-- C7: on a single-node graph the entropy normalization divides by
log2(1) = 0: the leading term resolves to negative infinity, every
per-trial entropy and the returned mean and stdv are nan rather than an
exception, and with the pair-returning configuration the whole
resilience curve consists of nan entries. -/
theorem single_node_entropy_nonfinite (G : Graph) (v : String) (h : G.nodes = [v])
    (f : ℚ) (removal : String) (niter ntimes rate : Nat)
    (u : Nat → String → ℚ) (u2 : Nat → Nat → Nat → String → ℚ)
    (hni : 4 < niter) (hnt : 1 ≤ ntimes) :
    FVal.fdiv (FVal.fin (-1)) (flog2 G.nodes.length) = FVal.negInf ∧
    (trialStep G f removal (u 0)).1 = FVal.nan ∧
    (modified_shannon_entropy G f removal niter true u).1 =
      PyResult.ok (MshOut.pair FVal.nan FVal.nan) ∧
    resilience G ntimes rate true removal true niter u2 =
      PyResult.ok (ResOut.curve (List.replicate rate FVal.nan)) := by
  have hlen : G.nodes.length = 1 := by rw [h]; rfl
  have hlead : FVal.fdiv (FVal.fin (-1)) (flog2 G.nodes.length) = FVal.negInf := by
    rw [hlen, flog2, if_neg (by omega), Nat.cast_one, Real.logb_one]
    norm_num [FVal.fdiv]
  refine ⟨hlead, trialStep_single_nan G v h f removal (u 0),
    msh_single_nan G v h f removal niter u hni, ?_⟩
  have hrow : ∀ r ∈ List.range ntimes, ∃ row,
      pySequence (((linspace01 rate).enum).map (fun jf =>
        unpair (modified_shannon_entropy G jf.2 removal niter true (u2 r jf.1)).1))
        = .ok row ∧ row = List.replicate rate (FVal.nan, FVal.nan) := by
    intro r _
    obtain ⟨row, hrowEq, hlen2, hP⟩ := pySequence_ok ((linspace01 rate).enum)
      (fun jf => unpair (modified_shannon_entropy G jf.2 removal niter true (u2 r jf.1)).1)
      (fun (y : FVal × FVal) => y = (FVal.nan, FVal.nan)) (by
        intro jf _
        refine ⟨(FVal.nan, FVal.nan), ?_, rfl⟩
        show unpair (modified_shannon_entropy G jf.2 removal niter true (u2 r jf.1)).1 = _
        rw [msh_single_nan G v h jf.2 removal niter (u2 r jf.1) hni]
        rfl)
    refine ⟨row, hrowEq, List.eq_replicate_iff.mpr ⟨?_, hP⟩⟩
    rw [hlen2, List.enum_length, linspace01_length]
  obtain ⟨rows, hrows, hrowslen, hrowsP⟩ := pySequence_ok (List.range ntimes)
    _ (fun (row : List (FVal × FVal)) => row = List.replicate rate (FVal.nan, FVal.nan)) hrow
  have hres := resilience_of_rows G ntimes rate removal true niter u2 rows hrows (by omega)
  have hrowsEq : rows = List.replicate ntimes (List.replicate rate (FVal.nan, FVal.nan)) :=
    List.eq_replicate_iff.mpr ⟨by rw [hrowslen, List.length_range], hrowsP⟩
  rw [hrowsEq] at hres
  have hmapfst : (List.replicate ntimes (List.replicate rate (FVal.nan, FVal.nan))).map
      (fun row => row.map Prod.fst) = List.replicate ntimes (List.replicate rate FVal.nan) := by
    rw [List.map_replicate, List.map_replicate]
  rw [hmapfst, ewiseMean_replicate_nan ntimes rate hnt] at hres
  exact hres

/-- C7 witness: the single-node graph with 5 trials, one repetition and a
3-point grid: leading term negative infinity, trial entropy nan, the
estimator mean and stdv nan, and a curve of 3 nans. -/
theorem single_node_entropy_nonfinite_witness :
    FVal.fdiv (FVal.fin (-1)) (flog2 single1.nodes.length) = FVal.negInf ∧
    (trialStep single1 (1 / 2) "random" ((fun _ _ => 0) 0)).1 = FVal.nan ∧
    (modified_shannon_entropy single1 (1 / 2) "random" 5 true (fun _ _ => 0)).1 =
      PyResult.ok (MshOut.pair FVal.nan FVal.nan) ∧
    resilience single1 1 3 true "random" true 5 (fun _ _ _ _ => 0) =
      PyResult.ok (ResOut.curve (List.replicate 3 FVal.nan)) :=
  single_node_entropy_nonfinite single1 "p" rfl (1 / 2) "random" 5 1 3
    (fun _ _ => 0) (fun _ _ _ _ => 0) (by decide) (by decide)

/-- C2 witness: the 4-cycle at fraction 1 with draws 0: every node is
removed, no component remains, and the trial entropy is exactly 1. -/
theorem entropy_fraction_one_witness :
    removeMarks cycle4.nodes 1 (fun _ => 0) = cycle4.nodes ∧
    componentSizes ((removeMarks cycle4.nodes 1 (fun _ => 0)).foldl removeNode cycle4) = [] ∧
    (trialStep cycle4 1 "random" (fun _ => 0)).1 = FVal.fin 1 := by
  refine entropy_fraction_one cycle4 "random" (fun _ => 0) (by decide) ?_
  intro v
  constructor
  · show (0 : ℚ) ≤ 0
    decide
  · show (0 : ℚ) < 1
    decide

/-- C3 witness: the 4-cycle at fraction 0 with draws 0: nothing is
marked, the cycle is a single size-4 component, and the entropy is 0. -/
theorem entropy_fraction_zero_witness :
    removeMarks cycle4.nodes 0 (fun _ => 0) = [] ∧
    componentSizes cycle4 = [cycle4.nodes.length] ∧
    (trialStep cycle4 0 "random" (fun _ => 0)).1 = FVal.fin 0 := by
  have hu : ∀ v : String, (0 : ℚ) ≤ (fun _ : String => (0 : ℚ)) v := by
    intro v
    show (0 : ℚ) ≤ 0
    decide
  refine ⟨(entropy_fraction_zero cycle4 "random" (fun _ => 0) (by decide) hu).1,
    by decide,
    (entropy_fraction_zero cycle4 "random" (fun _ => 0) (by decide) hu).2.2 (by decide)⟩

/-- Appending a node known to be present changes nothing. -/
theorem addNodeIfAbsent_of_mem (G : Graph) (v : String) (h : v ∈ G.nodes) :
    addNodeIfAbsent G v = G := by
  rw [addNodeIfAbsent, if_pos h]

/-- Adding one new edge between present endpoints appends exactly that
pair to the edge list. -/
theorem addEdge_of_mem (G : Graph) (s t : String) (hs : s ∈ G.nodes)
    (ht : t ∈ G.nodes) (hedge : hasEdge G s t = false) :
    addEdge G s t = { G with edges := G.edges ++ [(s, t)] } := by
  rw [addEdge, addNodeIfAbsent_of_mem G s hs, addNodeIfAbsent_of_mem G t ht,
    hedge]
  rw [if_neg (by simp)]

/-- Attaching a list of distinct fresh edges from a present source to
present targets appends exactly those pairs, leaving nodes and
attributes unchanged. -/
theorem foldl_addEdge_at_present (s : String) (ts : List String) (G : Graph)
    (hs : s ∈ G.nodes) (hts : ∀ t ∈ ts, t ∈ G.nodes)
    (hnd : ts.Nodup) (htne : ∀ t ∈ ts, t ≠ s)
    (hedge : ∀ t ∈ ts, hasEdge G s t = false) :
    (ts.foldl (fun g t => addEdge g s t) G).nodes = G.nodes ∧
    (ts.foldl (fun g t => addEdge g s t) G).edges
      = G.edges ++ ts.map (fun t => (s, t)) ∧
    (ts.foldl (fun g t => addEdge g s t) G).gex = G.gex := by
  induction ts generalizing G with
  | nil => simp
  | cons t ts ih =>
    have htmem : t ∈ G.nodes := hts t (List.mem_cons_self t ts)
    have hstep : addEdge G s t = { G with edges := G.edges ++ [(s, t)] } :=
      addEdge_of_mem G s t hs htmem (hedge t (List.mem_cons_self t ts))
    have htnotts : t ∉ ts := (List.nodup_cons.mp hnd).1
    have hedge2 : ∀ x ∈ ts,
        hasEdge { G with edges := G.edges ++ [(s, t)] } s x = false := by
      intro x hx
      have hxt : x ≠ t := fun hc => htnotts (hc ▸ hx)
      have hxs : x ≠ s := htne x (List.mem_cons_of_mem t hx)
      have hq : hasEdge G s x = false := hedge x (List.mem_cons_of_mem t hx)
      rw [hasEdge] at hq ⊢
      rw [List.any_append, hq, Bool.false_or]
      simp only [List.any_cons, List.any_nil, Bool.or_false]
      rw [decide_eq_false_iff_not]
      rintro (⟨-, hc⟩ | ⟨hc, -⟩)
      · exact hxt hc.symm
      · exact hxs hc.symm
    obtain ⟨h1, h2, h3⟩ := ih { G with edges := G.edges ++ [(s, t)] } hs
      (fun x hx => hts x (List.mem_cons_of_mem t hx))
      (List.nodup_cons.mp hnd).2
      (fun x hx => htne x (List.mem_cons_of_mem t hx)) hedge2
    rw [List.foldl_cons, hstep]
    refine ⟨h1, ?_, h3⟩
    rw [h2]
    simp [List.append_assoc]

/-- Attaching edges from a brand-new node: the node list gains exactly
the new node at the end, the edge list gains exactly the sampled pairs,
and the attributes are untouched. -/
theorem foldl_addEdge_fresh (s : String) (ts : List String) (G : Graph)
    (hs : s ∉ G.nodes) (hts : ∀ t ∈ ts, t ∈ G.nodes) (hnd : ts.Nodup)
    (hwf : ∀ e ∈ G.edges, e.1 ∈ G.nodes ∧ e.2 ∈ G.nodes)
    (hne : ts ≠ []) :
    (ts.foldl (fun g t => addEdge g s t) G).nodes = G.nodes ++ [s] ∧
    (ts.foldl (fun g t => addEdge g s t) G).edges
      = G.edges ++ ts.map (fun t => (s, t)) ∧
    (ts.foldl (fun g t => addEdge g s t) G).gex = G.gex := by
  cases ts with
  | nil => exact absurd rfl hne
  | cons t ts =>
    have htmem : t ∈ G.nodes := hts t (List.mem_cons_self t ts)
    have htnotts : t ∉ ts := (List.nodup_cons.mp hnd).1
    have hGa : addNodeIfAbsent G s = { G with nodes := G.nodes ++ [s] } := by
      rw [addNodeIfAbsent, if_neg hs]
    have hG1 : addEdge G s t =
        { nodes := G.nodes ++ [s], edges := G.edges ++ [(s, t)],
          gex := G.gex } := by
      rw [addEdge, hGa, addNodeIfAbsent_of_mem _ t (by simp [htmem])]
      have hhe : hasEdge { G with nodes := G.nodes ++ [s] } s t = false := by
        rw [hasEdge]
        apply List.any_eq_false.mpr
        intro e he
        rw [decide_eq_true_eq]
        rintro (⟨hc, -⟩ | ⟨-, hc⟩)
        · exact hs (hc ▸ (hwf e he).1)
        · exact hs (hc ▸ (hwf e he).2)
      rw [hhe, if_neg (by simp)]
    rw [List.foldl_cons, hG1]
    have hwf1 : ∀ x ∈ ts, x ≠ s := by
      intro x hx hc
      exact hs (hc ▸ hts x (List.mem_cons_of_mem t hx))
    have hedge1 : ∀ x ∈ ts, hasEdge
        { nodes := G.nodes ++ [s], edges := G.edges ++ [(s, t)], gex := G.gex }
          s x = false := by
      intro x hx
      rw [hasEdge]
      apply List.any_eq_false.mpr
      intro e he
      rw [decide_eq_true_eq]
      rcases List.mem_append.mp he with heG | het
      · rintro (⟨hc, -⟩ | ⟨-, hc⟩)
        · exact hs (hc ▸ (hwf e heG).1)
        · exact hs (hc ▸ (hwf e heG).2)
      · have he2 : e = (s, t) := by simpa using het
        subst he2
        rintro (⟨-, hc⟩ | ⟨hc, -⟩)
        · have hc2 : t = x := hc
          exact htnotts (hc2 ▸ hx)
        · have hc2 : s = x := hc
          exact hs (hc2 ▸ hts x (List.mem_cons_of_mem t hx))
    obtain ⟨h1, h2, h3⟩ := foldl_addEdge_at_present s ts
      { nodes := G.nodes ++ [s], edges := G.edges ++ [(s, t)], gex := G.gex }
      (by simp) (fun x hx => by simp [hts x (List.mem_cons_of_mem t hx)])
      (List.nodup_cons.mp hnd).2 hwf1 hedge1
    refine ⟨h1, ?_, h3⟩
    rw [h2]
    simp [List.append_assoc]

/-- The degree of the new node after attaching its edges: no
pre-existing edge touches it, and each added pair contributes one. -/
theorem degreeCount_new (G2 G : Graph) (s : String) (ts : List String)
    (hedges : G2.edges = G.edges ++ ts.map (fun t => (s, t)))
    (hwf : ∀ e ∈ G.edges, e.1 ∈ G.nodes ∧ e.2 ∈ G.nodes)
    (hs : s ∉ G.nodes) (hts : ∀ t ∈ ts, t ∈ G.nodes) :
    degreeCount G2 s = ts.length := by
  rw [degreeCount, hedges, List.countP_append, List.countP_append]
  have h1 : G.edges.countP (fun e => decide (e.1 = s)) = 0 := by
    apply List.countP_eq_zero.mpr
    intro e he
    rw [decide_eq_true_eq]
    intro hc
    exact hs (hc ▸ (hwf e he).1)
  have h2 : G.edges.countP (fun e => decide (e.2 = s)) = 0 := by
    apply List.countP_eq_zero.mpr
    intro e he
    rw [decide_eq_true_eq]
    intro hc
    exact hs (hc ▸ (hwf e he).2)
  have h3 : (ts.map (fun t => (s, t))).countP (fun e => decide (e.1 = s))
      = ts.length := by
    rw [List.countP_map]
    apply List.countP_eq_length.mpr
    intro t _
    simp [Function.comp]
  have h4 : (ts.map (fun t => (s, t))).countP (fun e => decide (e.2 = s)) = 0 := by
    rw [List.countP_map]
    apply List.countP_eq_zero.mpr
    intro t ht
    simp only [Function.comp_apply, decide_eq_true_eq]
    intro hc
    exact hs (hc ▸ hts t ht)
  omega

/-- The choice oracle succeeds when the probability vector passes every
numpy check and the sample respects the without-replacement contract. -/
theorem npChoice_ok (pick a : List String) (m : Nat) (p : List ℚ)
    (h1 : p.length = a.length) (h2 : ∀ x ∈ p, 0 ≤ x) (h3 : p.sum = 1)
    (h4 : m ≤ p.countP (fun x => decide (0 < x)))
    (h5 : pick.length = m) (h6 : pick.Nodup) (h7 : ∀ t ∈ pick, t ∈ a) :
    npChoice pick a m p = PyResult.ok pick := by
  have hb : p.any (fun x => decide (x < 0)) = false := by
    apply List.any_eq_false.mpr
    intro x hx
    rw [decide_eq_true_eq]
    exact not_lt.mpr (h2 x hx)
  rw [npChoice, if_neg (by simp [h1]), hb, if_neg (by simp),
    if_neg (by simp [h3]), if_neg (by omega), if_pos ⟨h5, h6, h7⟩]

/-- Dividing every entry divides the sum. -/
theorem list_sum_map_div (l : List ℚ) (c : ℚ) :
    (l.map (fun x => x / c)).sum = l.sum / c := by
  induction l with
  | nil => simp
  | cons a l ih => simp [ih, add_div]

/-- Dividing by a positive total preserves which entries are positive. -/
theorem countP_pos_map_div (l : List ℚ) (c : ℚ) (hc : 0 < c) :
    (l.map (fun x => x / c)).countP (fun x => decide (0 < x))
      = l.countP (fun x => decide (0 < x)) := by
  rw [List.countP_map]
  apply List.countP_congr
  intro x _
  simp only [Function.comp_apply, decide_eq_true_eq]
  constructor
  · intro h
    by_contra hx
    push_neg at hx
    have : x / c ≤ 0 := div_nonpos_iff.mpr (Or.inr ⟨hx, le_of_lt hc⟩)
    linarith
  · intro h
    exact div_pos h hc

/-- The random branch of add_node, when the sample succeeds. -/
theorem add_node_random_unfold (G : Graph) (m : Nat) (n : String) (alpha : Nat)
    (pick eijs : List String)
    (hch : npChoice pick G.nodes m
        (G.nodes.map (fun _ => (1 : ℚ) / (G.nodes.length : ℚ)))
      = PyResult.ok eijs) :
    add_node G m n "random" alpha pick =
      PyResult.ok (eijs.foldl (fun g t => addEdge g n t) G) := by
  simp only [add_node]
  rw [if_pos trivial, hch]

/-- The degree branch of add_node, when the sample succeeds. -/
theorem add_node_degree_unfold (G : Graph) (m : Nat) (n : String) (alpha : Nat)
    (pick eijs : List String)
    (hch : npChoice pick G.nodes m
        ((degreeWeights G alpha).map (fun w => w / (degreeWeights G alpha).sum))
      = PyResult.ok eijs) :
    add_node G m n "degree" alpha pick =
      PyResult.ok (eijs.foldl (fun g t => addEdge g n t) G) := by
  simp only [add_node]
  rw [hch]
  simp

/-- The bio_smart branch of add_node, when the percentile and the sample
both succeed. -/
theorem add_node_bio_unfold (G : Graph) (m : Nat) (n : String) (alpha : Nat)
    (pick eijs : List String) (q : ℚ)
    (hq : npPercentile10 (G.gex.map Prod.snd) = PyResult.ok q)
    (hch : npChoice pick G.nodes m
        ((G.gex.map Prod.snd).map (fun x => x / (G.gex.map Prod.snd).sum))
      = PyResult.ok eijs) :
    add_node G m n "bio_smart" alpha pick =
      PyResult.ok (setGexNew
        (eijs.foldl (fun g t => addEdge g ("added_protein_" ++ n) t) G)
        ("added_protein_" ++ n) q) := by
  simp only [add_node]
  rw [hq, hch]
  simp

/-- C6 as amended: for a fresh node id, a valid without-replacement
sample, and 1 <= m targets available with positive weight, add_node with
method random or degree adds the new node (node count + 1), exactly m
edges, and gives the new node degree exactly m. -/
theorem add_node_growth (G : Graph) (m : Nat) (n method : String) (alpha : Nat)
    (pick : List String)
    (hn : n ∉ G.nodes)
    (hwf : ∀ e ∈ G.edges, e.1 ∈ G.nodes ∧ e.2 ∈ G.nodes)
    (hm : 1 ≤ m)
    (hp1 : pick.length = m) (hp2 : pick.Nodup) (hp3 : ∀ t ∈ pick, t ∈ G.nodes)
    (hcase : (method = "random" ∧ m ≤ G.nodes.length) ∨
      (method = "degree" ∧
        m ≤ (degreeWeights G alpha).countP (fun w => decide (0 < w)))) :
    ∃ G2, add_node G m n method alpha pick = PyResult.ok G2 ∧
      G2.nodes = G.nodes ++ [n] ∧
      G2.nodes.length = G.nodes.length + 1 ∧
      G2.edges.length = G.edges.length + m ∧
      degreeCount G2 n = m := by
  have hpickne : pick ≠ [] := by
    intro hc
    rw [hc, List.length_nil] at hp1
    omega
  obtain ⟨h1, h2, h3⟩ := foldl_addEdge_fresh n pick G hn hp3 hp2 hwf hpickne
  have hconc : ∀ hfold : add_node G m n method alpha pick =
      PyResult.ok (pick.foldl (fun g t => addEdge g n t) G),
      ∃ G2, add_node G m n method alpha pick = PyResult.ok G2 ∧
        G2.nodes = G.nodes ++ [n] ∧
        G2.nodes.length = G.nodes.length + 1 ∧
        G2.edges.length = G.edges.length + m ∧
        degreeCount G2 n = m := by
    intro hfold
    refine ⟨pick.foldl (fun g t => addEdge g n t) G, hfold, h1, ?_, ?_, ?_⟩
    · rw [h1, List.length_append, List.length_cons, List.length_nil]
    · rw [h2, List.length_append, List.length_map, hp1]
    · exact degreeCount_new _ G n pick h2 hwf hn hp3 ▸ hp1 ▸ rfl
  rcases hcase with ⟨hmeth, hmle⟩ | ⟨hmeth, hmpos⟩
  · subst hmeth
    have hN1 : 1 ≤ G.nodes.length := by omega
    have hNne : (G.nodes.length : ℚ) ≠ 0 := Nat.cast_ne_zero.mpr (by omega)
    have hNpos : (0 : ℚ) < (G.nodes.length : ℚ) := by
      exact_mod_cast Nat.pos_of_ne_zero (by omega)
    have hpos : (0 : ℚ) < 1 / (G.nodes.length : ℚ) := by positivity
    apply hconc
    apply add_node_random_unfold
    apply npChoice_ok
    · rw [List.length_map]
    · intro x hx
      obtain ⟨y, -, rfl⟩ := List.mem_map.mp hx
      exact le_of_lt hpos
    · rw [List.map_const', List.sum_replicate, nsmul_eq_mul,
        mul_one_div_cancel hNne]
    · have hcp : (G.nodes.map (fun _ => (1 : ℚ) / (G.nodes.length : ℚ))).countP
          (fun x => decide (0 < x))
          = (G.nodes.map (fun _ => (1 : ℚ) / (G.nodes.length : ℚ))).length := by
        apply List.countP_eq_length.mpr
        intro x hx
        obtain ⟨y, -, rfl⟩ := List.mem_map.mp hx
        rw [decide_eq_true_eq]
        exact hpos
      rw [hcp, List.length_map]
      exact hmle
    · exact hp1
    · exact hp2
    · exact hp3
  · subst hmeth
    have hwnn : ∀ x ∈ degreeWeights G alpha, (0 : ℚ) ≤ x := by
      intro x hx
      obtain ⟨d, -, rfl⟩ := List.mem_map.mp hx
      exact Nat.cast_nonneg _
    have hSpos : (0 : ℚ) < (degreeWeights G alpha).sum := by
      have hex : ∃ w ∈ degreeWeights G alpha, (0 : ℚ) < w := by
        have : 0 < (degreeWeights G alpha).countP (fun w => decide (0 < w)) := by
          omega
        obtain ⟨w, hw, hwp⟩ := List.countP_pos_iff.mp this
        exact ⟨w, hw, of_decide_eq_true hwp⟩
      obtain ⟨w, hw, hwp⟩ := hex
      calc (0 : ℚ) < w := hwp
        _ ≤ (degreeWeights G alpha).sum := List.single_le_sum hwnn w hw
    apply hconc
    apply add_node_degree_unfold
    apply npChoice_ok
    · rw [List.length_map, degreeWeights, List.length_map, List.length_map]
    · intro x hx
      obtain ⟨y, hy, rfl⟩ := List.mem_map.mp hx
      exact div_nonneg (hwnn y hy) (le_of_lt hSpos)
    · rw [list_sum_map_div, div_self (ne_of_gt hSpos)]
    · rw [countP_pos_map_div _ _ hSpos]
      exact hmpos
    · exact hp1
    · exact hp2
    · exact hp3

/-- C6 counterexample: with m = 0 the sampled target list is empty, no
add_edge runs, and the new node is never created: add_node returns the
unchanged 4-cycle, whose node count did not grow by one. -/
theorem add_node_growth_counterexample :
    add_node cycle4 0 "x" "random" 1 [] = PyResult.ok cycle4 ∧
    "x" ∉ cycle4.nodes ∧ cycle4.nodes.length = 4 := by
  refine ⟨by with_unfolding_all decide, by decide, by decide⟩

/-- C6 witness: attaching m = 2 random edges from the fresh node x to
the sampled targets 0 and 2 of the 4-cycle grows the node count to 5,
the edge count to 6, and gives x degree 2. -/
theorem add_node_growth_witness :
    ∃ G2, add_node cycle4 2 "x" "random" 1 ["0", "2"] = PyResult.ok G2 ∧
      G2.nodes = cycle4.nodes ++ ["x"] ∧
      G2.nodes.length = cycle4.nodes.length + 1 ∧
      G2.edges.length = cycle4.edges.length + 2 ∧
      degreeCount G2 "x" = 2 := by
  refine add_node_growth cycle4 2 "x" "random" 1 ["0", "2"]
    (by decide) (by decide) (by decide) (by decide) (by decide) (by decide)
    (Or.inl ⟨rfl, by decide⟩)

/-- C4: bio_smart growth on a graph where some node lacks the
gene_expression attribute raises an exception before any mutation:
with no attributes at all np.percentile raises on the empty array, and
otherwise the probability vector built from the attribute dict is
shorter than the node list, so np.random.choice raises the size
mismatch. -/
theorem bio_smart_missing_attr (G : Graph) (m : Nat) (n : String) (alpha : Nat)
    (pick : List String)
    (hkeys : ∀ k ∈ G.gex.map Prod.fst, k ∈ G.nodes)
    (hkeysnd : (G.gex.map Prod.fst).Nodup)
    (hmiss : ∃ v ∈ G.nodes, v ∉ G.gex.map Prod.fst) :
    ∃ e, add_node G m n "bio_smart" alpha pick = PyResult.error e := by
  obtain ⟨v, hv, hvni⟩ := hmiss
  have hlt : G.gex.length < G.nodes.length := by
    have hsub : (G.gex.map Prod.fst) ⊆ G.nodes.erase v := by
      intro k hk
      have hkv : k ≠ v := fun hc => hvni (hc ▸ hk)
      exact (List.mem_erase_of_ne hkv).mpr (hkeys k hk)
    have hle := (List.subperm_of_subset hkeysnd hsub).length_le
    rw [List.length_map] at hle
    have herase : (G.nodes.erase v).length = G.nodes.length - 1 :=
      List.length_erase_of_mem hv
    have hpos : 0 < G.nodes.length := List.length_pos_of_mem hv
    omega
  cases hgex : G.gex with
  | nil =>
    refine ⟨"IndexError: cannot do a non-empty take from an empty axes", ?_⟩
    simp only [add_node]
    have hq : npPercentile10 (G.gex.map Prod.snd) =
        PyResult.error "IndexError: cannot do a non-empty take from an empty axes" := by
      rw [hgex]
      rfl
    rw [hq]
    simp
  | cons q l =>
    refine ⟨"ValueError: a and p must have same size", ?_⟩
    simp only [add_node]
    have hne : ¬ (G.gex.map Prod.snd).isEmpty = true := by
      rw [hgex]
      simp
    have hq : npPercentile10 (G.gex.map Prod.snd) =
        PyResult.ok (p10 (G.gex.map Prod.snd)) := by
      rw [npPercentile10, if_neg hne]
    rw [hq]
    have hc : npChoice pick G.nodes m
        ((G.gex.map Prod.snd).map (fun x => x / (G.gex.map Prod.snd).sum))
        = PyResult.error "ValueError: a and p must have same size" := by
      rw [npChoice, if_pos (by
        rw [List.length_map, List.length_map]
        omega)]
    rw [hc]
    simp

/-- The graph with a node missing the gene_expression attribute. -/
def gexMissingB : Graph := ⟨["a", "b"], [("a", "b")], [("a", 1)]⟩

/-- C4 witness: on the two-node graph where only node a carries the
attribute, bio_smart growth raises. -/
theorem bio_smart_missing_attr_witness :
    ∃ e, add_node gexMissingB 1 "x" "bio_smart" 1 ["a"] = PyResult.error e :=
  bio_smart_missing_attr gexMissingB 1 "x" 1 ["a"]
    (by decide) (by decide) (by decide)

/-- C5 as amended: when every node carries the attribute, the values are
nonnegative with at least m of them positive, 1 <= m <= node count, and
the derived identifier is fresh, bio_smart adds exactly the one node
named added_protein_ + n and assigns it the 10th percentile of the
pre-addition expression values. -/
theorem bio_smart_adds_node (G : Graph) (m : Nat) (n : String) (alpha : Nat)
    (pick : List String)
    (hkeys : G.gex.map Prod.fst = G.nodes)
    (hfresh : ("added_protein_" ++ n) ∉ G.nodes)
    (hwf : ∀ e ∈ G.edges, e.1 ∈ G.nodes ∧ e.2 ∈ G.nodes)
    (hm : 1 ≤ m)
    (hnn : ∀ x ∈ G.gex.map Prod.snd, (0 : ℚ) ≤ x)
    (hposcnt : m ≤ (G.gex.map Prod.snd).countP (fun x => decide (0 < x)))
    (hp1 : pick.length = m) (hp2 : pick.Nodup) (hp3 : ∀ t ∈ pick, t ∈ G.nodes) :
    ∃ G2, add_node G m n "bio_smart" alpha pick = PyResult.ok G2 ∧
      G2.nodes = G.nodes ++ ["added_protein_" ++ n] ∧
      G2.nodes.length = G.nodes.length + 1 ∧
      gexLookup G2 ("added_protein_" ++ n) = some (p10 (G.gex.map Prod.snd)) := by
  have hSpos : (0 : ℚ) < (G.gex.map Prod.snd).sum := by
    have hex : 0 < (G.gex.map Prod.snd).countP (fun x => decide (0 < x)) := by
      omega
    obtain ⟨w, hw, hwp⟩ := List.countP_pos_iff.mp hex
    calc (0 : ℚ) < w := of_decide_eq_true hwp
      _ ≤ (G.gex.map Prod.snd).sum := List.single_le_sum hnn w hw
  have hvlen : (G.gex.map Prod.snd).length = G.nodes.length := by
    rw [List.length_map, ← hkeys, List.length_map]
  have hcnt_le : (G.gex.map Prod.snd).countP (fun x => decide (0 < x))
      ≤ (G.gex.map Prod.snd).length := List.countP_le_length _
  have hq : npPercentile10 (G.gex.map Prod.snd) =
      PyResult.ok (p10 (G.gex.map Prod.snd)) := by
    rw [npPercentile10, if_neg (by
      rw [List.isEmpty_iff_length_eq_zero]
      omega)]
  have hch : npChoice pick G.nodes m
      ((G.gex.map Prod.snd).map (fun x => x / (G.gex.map Prod.snd).sum))
      = PyResult.ok pick := by
    apply npChoice_ok
    · rw [List.length_map, hvlen]
    · intro x hx
      obtain ⟨y, hy, rfl⟩ := List.mem_map.mp hx
      exact div_nonneg (hnn y hy) (le_of_lt hSpos)
    · rw [list_sum_map_div, div_self (ne_of_gt hSpos)]
    · rw [countP_pos_map_div _ _ hSpos]
      exact hposcnt
    · exact hp1
    · exact hp2
    · exact hp3
  have hpickne : pick ≠ [] := by
    intro hc
    rw [hc, List.length_nil] at hp1
    omega
  obtain ⟨h1, h2, h3⟩ := foldl_addEdge_fresh ("added_protein_" ++ n) pick G
    hfresh hp3 hp2 hwf hpickne
  have hmem : ("added_protein_" ++ n) ∈
      (pick.foldl (fun g t => addEdge g ("added_protein_" ++ n) t) G).nodes := by
    rw [h1]
    simp
  have hany : (pick.foldl (fun g t => addEdge g ("added_protein_" ++ n) t) G).gex.any
      (fun p => decide (p.1 = "added_protein_" ++ n)) = false := by
    rw [h3]
    apply List.any_eq_false.mpr
    intro p hp
    rw [decide_eq_true_eq]
    intro hc
    apply hfresh
    rw [← hkeys]
    rw [← hc]
    exact List.mem_map.mpr ⟨p, hp, rfl⟩
  have hsg : setGexNew (pick.foldl (fun g t => addEdge g ("added_protein_" ++ n) t) G)
      ("added_protein_" ++ n) (p10 (G.gex.map Prod.snd)) =
      { (pick.foldl (fun g t => addEdge g ("added_protein_" ++ n) t) G) with
        gex := (pick.foldl (fun g t => addEdge g ("added_protein_" ++ n) t) G).gex
          ++ [("added_protein_" ++ n, p10 (G.gex.map Prod.snd))] } := by
    rw [setGexNew, if_pos hmem, hany]
    rw [if_neg (by simp)]
  refine ⟨_, add_node_bio_unfold G m n alpha pick pick
    (p10 (G.gex.map Prod.snd)) hq hch, ?_, ?_, ?_⟩
  · rw [hsg]
    exact h1
  · rw [hsg]
    show (pick.foldl (fun g t => addEdge g ("added_protein_" ++ n) t) G).nodes.length
      = G.nodes.length + 1
    rw [h1, List.length_append, List.length_cons, List.length_nil]
  · have hnone : (pick.foldl (fun g t => addEdge g ("added_protein_" ++ n) t) G).gex.find?
        (fun p => decide (p.1 = "added_protein_" ++ n)) = Option.none := by
      apply List.find?_eq_none.mpr
      intro p hp
      rw [h3] at hp
      rw [decide_eq_true_eq]
      intro hc
      apply hfresh
      rw [← hkeys, ← hc]
      exact List.mem_map.mpr ⟨p, hp, rfl⟩
    rw [hsg, gexLookup]
    have hgexval : ({ (pick.foldl (fun g t => addEdge g ("added_protein_" ++ n) t) G) with
        gex := (pick.foldl (fun g t => addEdge g ("added_protein_" ++ n) t) G).gex
          ++ [("added_protein_" ++ n, p10 (G.gex.map Prod.snd))] } : Graph).gex
        = (pick.foldl (fun g t => addEdge g ("added_protein_" ++ n) t) G).gex
          ++ [("added_protein_" ++ n, p10 (G.gex.map Prod.snd))] := rfl
    rw [hgexval, List.find?_append, hnone]
    simp

/-- C5 counterexample: with m = 0 the sample is empty, no add_edge runs,
the new node is never created, and set_node_attributes silently ignores
the nonexistent node: add_node returns the unchanged graph and the
derived identifier is neither a node nor an attribute key. -/
theorem bio_smart_adds_node_counterexample :
    add_node gex4 0 "x" "bio_smart" 1 [] = PyResult.ok gex4 ∧
    "added_protein_x" ∉ gex4.nodes ∧
    gexLookup gex4 "added_protein_x" = Option.none := by
  refine ⟨by with_unfolding_all decide, by decide, by decide⟩

/-- C5 witness: on the 4-cycle with expressions 1, 2, 3, 4, attaching
one bio_smart edge to the sampled target 0 adds the node
added_protein_x and assigns it the 10th percentile 13/10. -/
theorem bio_smart_adds_node_witness :
    ∃ G2, add_node gex4 1 "x" "bio_smart" 1 ["0"] = PyResult.ok G2 ∧
      G2.nodes = gex4.nodes ++ ["added_protein_" ++ "x"] ∧
      G2.nodes.length = gex4.nodes.length + 1 ∧
      gexLookup G2 ("added_protein_" ++ "x") = some (p10 (gex4.gex.map Prod.snd)) :=
  bio_smart_adds_node gex4 1 "x" 1 ["0"] (by decide) (by decide) (by decide)
    (by decide) (by decide) (by decide) (by decide) (by decide) (by decide)

end Presilience
